import Mathlib

/-!
Verification development for the WEEX trading CLI (`weex_cli.py`).

The development shallowly embeds the request-signing and precision-normalization
pipeline of the tool:

* `round_to_step`, `adjust_price_to_precision`, `adjust_size_to_precision`,
  `format_price_string` — the numeric normalization helpers, modelled over exact
  rationals (`ℚ`); Python's built-in `round` (nearest integer, ties to even) is
  modelled by `pyRound`.
* `generate_signature` — the HMAC-SHA256 / base64 request signer, with fully
  executable embeddings of SHA-256, HMAC, base64 and UTF-8.
* `place_order` — the order request builder, modelled up to the transport
  boundary.
* `get_single_position` / `get_all_positions` — the per-symbol position query
  and the all-symbols batch loop, with the HTTP transport as an explicit oracle.
-/

/-- Python's built-in one-argument `round`: the nearest integer to `q`,
with ties at the half-way point resolved to the even neighbour. -/
def pyRound (q : ℚ) : ℤ :=
  if q - ⌊q⌋ < 1/2 then ⌊q⌋
  else if 1/2 < q - ⌊q⌋ then ⌊q⌋ + 1
  else if Even ⌊q⌋ then ⌊q⌋ else ⌊q⌋ + 1

/-- Embedding of `round_to_step` (weex_cli.py lines 60-64):
`if step <= 0: return value` then `round(value / step) * step`. -/
def round_to_step (value step : ℚ) : ℚ :=
  if step ≤ 0 then value
  else (pyRound (value / step) : ℚ) * step

/-- One entry of the `SYMBOL_PRECISION` table: price step, size step and
minimum order size of a trading pair. -/
structure SymbolPrecision where
  price_step : ℚ
  size_step : ℚ
  min_size : ℚ
deriving DecidableEq, Repr

/-- Embedding of the `SYMBOL_PRECISION` dict (weex_cli.py lines 48-57),
as an association list in the source's insertion order. -/
def SYMBOL_PRECISION : List (String × SymbolPrecision) :=
  [("cmt_btcusdt", ⟨0.1, 0.001, 0.001⟩),
   ("cmt_ethusdt", ⟨0.01, 0.001, 0.001⟩),
   ("cmt_solusdt", ⟨0.001, 0.1, 0.1⟩),
   ("cmt_dogeusdt", ⟨0.00001, 100, 100⟩),
   ("cmt_xrpusdt", ⟨0.0001, 10, 10⟩),
   ("cmt_adausdt", ⟨0.0001, 10, 10⟩),
   ("cmt_bnbusdt", ⟨0.01, 0.1, 0.1⟩),
   ("cmt_ltcusdt", ⟨0.01, 0.1, 0.1⟩)]

/-- Dictionary lookup in `SYMBOL_PRECISION`: `SYMBOL_PRECISION[symbol]` when
`symbol in SYMBOL_PRECISION`, `none` otherwise. -/
def lookupPrecision (symbol : String) : Option SymbolPrecision :=
  (SYMBOL_PRECISION.find? (fun kv => kv.1 == symbol)).map (·.2)

/-- Embedding of `list(SYMBOL_PRECISION.keys())` (weex_cli.py line 326):
the table's symbols in insertion order. -/
def all_symbols : List String := SYMBOL_PRECISION.map (·.1)

/-- Embedding of `adjust_price_to_precision` (weex_cli.py lines 67-72). -/
def adjust_price_to_precision (price : ℚ) (symbol : String) : ℚ :=
  match lookupPrecision symbol with
  | none => price
  | some precision => round_to_step price precision.price_step

/-- Embedding of `adjust_size_to_precision` (weex_cli.py lines 75-82). -/
def adjust_size_to_precision (size : ℚ) (symbol : String) : ℚ :=
  match lookupPrecision symbol with
  | none => size
  | some precision => max (round_to_step size precision.size_step) precision.min_size

theorem pyRound_intCast (n : ℤ) : pyRound (n : ℚ) = n := by
  simp [pyRound, Int.floor_intCast]

theorem pyRound_abs_sub_le (q : ℚ) : |q - (pyRound q : ℚ)| ≤ 1/2 := by
  have h0 : (⌊q⌋ : ℚ) ≤ q := Int.floor_le q
  have h1 : q < (⌊q⌋ : ℚ) + 1 := Int.lt_floor_add_one q
  unfold pyRound
  split_ifs with hlt hgt hev
  · rw [abs_of_nonneg (by linarith)]; linarith
  · rw [abs_of_nonpos (by push_cast; linarith)]; push_cast; linarith
  · rw [abs_of_nonneg (by linarith)]; linarith
  · rw [abs_of_nonpos (by push_cast; linarith)]; push_cast; linarith

theorem pyRound_nearest (q : ℚ) (k : ℤ) :
    |q - (pyRound q : ℚ)| ≤ |q - (k : ℚ)| := by
  by_cases hk : k = pyRound q
  · subst hk; exact le_refl _
  · have hne : pyRound q - k ≠ 0 := sub_ne_zero.2 (fun h => hk h.symm)
    have h1 : (1 : ℤ) ≤ |pyRound q - k| := Int.one_le_abs hne
    have h1q : (1 : ℚ) ≤ |(pyRound q : ℚ) - (k : ℚ)| := by
      exact_mod_cast h1
    have tri : |(pyRound q : ℚ) - (k : ℚ)| ≤ |(pyRound q : ℚ) - q| + |q - (k : ℚ)| :=
      abs_sub_le _ _ _
    have hs := pyRound_abs_sub_le q
    rw [abs_sub_comm] at hs
    linarith [pyRound_abs_sub_le q]

theorem pyRound_tie (n : ℤ) : pyRound ((n : ℚ) + 1/2) = if Even n then n else n + 1 := by
  have h0 : ⌊(1/2 : ℚ)⌋ = 0 := by
    rw [Int.floor_eq_iff]; norm_num
  have hf : ⌊(n : ℚ) + 1/2⌋ = n := by
    rw [add_comm, Int.floor_add_int, h0, zero_add]
  simp only [pyRound, hf]
  norm_num

theorem lookupPrecision_mem {sym : String} {p : SymbolPrecision}
    (h : lookupPrecision sym = some p) : (sym, p) ∈ SYMBOL_PRECISION := by
  unfold lookupPrecision at h
  cases hf : SYMBOL_PRECISION.find? (fun kv => kv.1 == sym) with
  | none => rw [hf] at h; simp at h
  | some kv =>
    rw [hf] at h
    simp at h
    have hmem := List.mem_of_find?_eq_some hf
    have hpred := List.find?_some hf
    have hkey : kv.1 = sym := by simpa using hpred
    obtain ⟨k, v⟩ := kv
    simp only at hkey h
    rw [← hkey, ← h]
    exact hmem

theorem table_facts : ∀ kv ∈ SYMBOL_PRECISION,
    kv.2.min_size = kv.2.size_step ∧ 0 < kv.2.size_step ∧ 0 < kv.2.price_step := by
  intro kv hkv
  fin_cases hkv <;> norm_num

/-- C10: `round_to_step` is total over non-positive steps: for every value and
every `step ≤ 0` it returns the value unchanged, so the division by `step` is
never reached on such inputs. -/
theorem c10_round_to_step_nonpositive_step (value step : ℚ) (h : step ≤ 0) :
    round_to_step value step = value := by
  simp [round_to_step, h]

theorem c10_witness : round_to_step 5 0 = 5 :=
  c10_round_to_step_nonpositive_step 5 0 (by norm_num)

/-- C5: for every value and every positive step, `round_to_step value step`
equals `round (value / step) * step` with `round` the half-to-even rounding,
and this is a nearest multiple of `step`; at a midpoint `value / step = n + 1/2`
the even neighbour of `n` is chosen. -/
theorem c5_round_to_step_nearest_multiple (value step : ℚ) (h : 0 < step) :
    round_to_step value step = (pyRound (value / step) : ℚ) * step
    ∧ (∀ k : ℤ, |value - round_to_step value step| ≤ |value - (k : ℚ) * step|)
    ∧ (∀ n : ℤ, value / step = (n : ℚ) + 1/2 →
        round_to_step value step = ((if Even n then n else n + 1 : ℤ) : ℚ) * step) := by
  have hns : ¬ step ≤ 0 := not_le.2 h
  have heq : round_to_step value step = (pyRound (value / step) : ℚ) * step := by
    simp [round_to_step, hns]
  refine ⟨heq, ?_, ?_⟩
  · intro k
    have key : ∀ m : ℤ, value - (m : ℚ) * step = (value / step - m) * step := by
      intro m; field_simp; ring
    rw [heq, key, key, abs_mul, abs_mul, abs_of_pos h]
    exact mul_le_mul_of_nonneg_right (pyRound_nearest (value / step) k) h.le
  · intro n hn
    rw [heq, hn, pyRound_tie]

theorem c5_witness : round_to_step (567/10000) (1/100) = 6/100 :=
  ((c5_round_to_step_nearest_multiple (567/10000) (1/100) (by norm_num)).1).trans
    (by norm_num [pyRound])

/-- C6: `round_to_step` is idempotent for every positive step. -/
theorem c6_round_to_step_idempotent (x step : ℚ) (h : 0 < step) :
    round_to_step (round_to_step x step) step = round_to_step x step := by
  have hns : ¬ step ≤ 0 := not_le.2 h
  simp only [round_to_step, if_neg hns]
  rw [mul_div_cancel_right₀ _ (ne_of_gt h), pyRound_intCast]

theorem c6_witness :
    round_to_step (round_to_step (567/10000) (1/100)) (1/100) = round_to_step (567/10000) (1/100) :=
  c6_round_to_step_idempotent (567/10000) (1/100) (by norm_num)

/-- C2: for every symbol of the precision table, the normalized size is
`max (round_to_step raw sizeStep) minSize`, and every `raw ≤ minSize` is
silently raised to exactly `minSize`. -/
theorem c2_adjust_size_min_enforcement (sym : String) (p : SymbolPrecision)
    (h : lookupPrecision sym = some p) (raw : ℚ) :
    adjust_size_to_precision raw sym = max (round_to_step raw p.size_step) p.min_size
    ∧ (raw ≤ p.min_size → adjust_size_to_precision raw sym = p.min_size) := by
  have hmin : p.min_size = p.size_step := (table_facts _ (lookupPrecision_mem h)).1
  have hpos : 0 < p.size_step := (table_facts _ (lookupPrecision_mem h)).2.1
  have heq : adjust_size_to_precision raw sym
      = max (round_to_step raw p.size_step) p.min_size := by
    simp [adjust_size_to_precision, h]
  refine ⟨heq, fun hle => ?_⟩
  have hns : ¬ p.size_step ≤ 0 := not_le.2 hpos
  have hdiv : raw / p.size_step ≤ 1 :=
    (div_le_one hpos).2 (by rw [← hmin]; exact hle)
  have habs := abs_le.1 (pyRound_abs_sub_le (raw / p.size_step))
  have hub : (pyRound (raw / p.size_step) : ℚ) ≤ 3/2 := by linarith [habs.1]
  have hub2 : (pyRound (raw / p.size_step) : ℚ) < 2 := lt_of_le_of_lt hub (by norm_num)
  have hub2' : pyRound (raw / p.size_step) < 2 := by exact_mod_cast hub2
  have hub1 : (pyRound (raw / p.size_step) : ℚ) ≤ 1 := by
    have : pyRound (raw / p.size_step) ≤ 1 := by omega
    exact_mod_cast this
  have hrts : round_to_step raw p.size_step ≤ p.min_size := by
    rw [round_to_step, if_neg hns, hmin]
    calc (pyRound (raw / p.size_step) : ℚ) * p.size_step
        ≤ 1 * p.size_step := mul_le_mul_of_nonneg_right hub1 hpos.le
      _ = p.size_step := one_mul _
  rw [heq, max_eq_right hrts]

theorem c2_witness : adjust_size_to_precision 50 "cmt_dogeusdt" = 100 :=
  (c2_adjust_size_min_enforcement "cmt_dogeusdt" ⟨0.00001, 100, 100⟩ (by rfl) 50).2 (by norm_num)

/-- C8: for a symbol absent from the precision table, size and price
normalization are the identity; no failure value exists, the raw value is
returned unmodified. -/
theorem c8_unknown_symbol_passthrough (sym : String) (h : lookupPrecision sym = none) (v : ℚ) :
    adjust_size_to_precision v sym = v ∧ adjust_price_to_precision v sym = v := by
  simp [adjust_size_to_precision, adjust_price_to_precision, h]

theorem c8_witness : adjust_size_to_precision (3456/1000) "cmt_unknown" = 3456/1000 :=
  (c8_unknown_symbol_passthrough "cmt_unknown" (by rfl) (3456/1000)).1

/-- Decimal digit character for a digit 0-9. -/
def digitChar (n : Nat) : Char :=
  if n = 0 then '0' else if n = 1 then '1' else if n = 2 then '2' else if n = 3 then '3'
  else if n = 4 then '4' else if n = 5 then '5' else if n = 6 then '6' else if n = 7 then '7'
  else if n = 8 then '8' else '9'

/-- Big-endian decimal digits of `m`, exactly `k` characters (the low `k`
digits, zero-padded): renders a fixed number of fraction digits. -/
def natDigitsFixed : Nat → Nat → List Char
  | _, 0 => []
  | m, k+1 => natDigitsFixed (m / 10) k ++ [digitChar (m % 10)]

def natToCharsAux : Nat → Nat → List Char
  | 0, _ => []
  | fuel+1, n => if n = 0 then [] else natToCharsAux fuel (n / 10) ++ [digitChar (n % 10)]

/-- Decimal representation of a natural number, as Python prints an int. -/
def natToChars (n : Nat) : List Char :=
  if n = 0 then ['0'] else natToCharsAux (n + 1) n

def decExpAux (d : Nat) : Nat → Nat → Nat
  | 0, k => k
  | fuel+1, k => if 10 ^ k % d = 0 then k else decExpAux d fuel (k + 1)

/-- The least `k` with `d ∣ 10^k`, for `d` a divisor of a power of ten: the
number of decimal fraction digits of a reduced fraction with denominator `d`. -/
def decExp (d : Nat) : Nat := decExpAux d d 0

/-- Exponent digits of Python scientific notation: at least two digits. -/
def pad2 (n : Nat) : List Char := if n < 10 then '0' :: natToChars n else natToChars n

/-- Python scientific notation for the value `digits * 10^(-k)` (`digits > 0`):
mantissa with the leading digit before the point and trailing zeros stripped,
then `e`, a sign and a two-digit exponent, as in `'1e-05'` or `'2.5e-05'`. -/
def sciChars (digits k : Nat) : List Char :=
  let ds := natToChars digits
  let mantDigits := (ds.reverse.dropWhile (fun c => c == '0')).reverse
  let e : Int := (ds.length : Int) - 1 - (k : Int)
  let mant := match mantDigits with
    | [] => ['0']
    | [c] => [c]
    | c :: rest => c :: '.' :: rest
  mant ++ 'e' :: (if e < 0 then '-' :: pad2 e.natAbs else '+' :: pad2 e.natAbs)

/-- Model of CPython `str()` on a float whose value is exactly the rational `q`.
The source only applies it to exact short decimal values, for which the
shortest round-tripping repr is the decimal literal itself: positional
notation (with at least one fraction digit) for `1e-4 ≤ |q| < 1e16`,
scientific notation (as in `'1e-05'`) otherwise. -/
def pyFloatStr (q : ℚ) : String :=
  if q = 0 then "0.0"
  else
    let sign : List Char := if q < 0 then ['-'] else []
    let a := |q|
    let k := decExp a.den
    let digits := a.num.natAbs * 10 ^ k / a.den
    if a < 1/10000 ∨ 10^16 ≤ a then String.mk (sign ++ sciChars digits k)
    else if k = 0 then String.mk (sign ++ natToChars digits ++ ['.', '0'])
    else String.mk (sign ++ natToChars (digits / 10 ^ k) ++ '.' :: natDigitsFixed (digits % 10 ^ k) k)

/-- Python `s.rstrip('0')`. -/
def pyRstrip0 (s : String) : String :=
  String.mk ((s.data.reverse.dropWhile (fun c => c == '0')).reverse)

/-- Python `s.split('.')[-1]`: everything after the last dot, the whole string
when there is no dot. -/
def pySplitDotLast (s : String) : String :=
  String.mk ((s.data.reverse.takeWhile (fun c => c != '.')).reverse)

/-- Embedding of the decimal-place computation of `format_price_string`
(weex_cli.py lines 92-95): 0 when the step is at least 1, otherwise
`len(str(price_step).rstrip('0').split('.')[-1])`. -/
def decimalPlaces (price_step : ℚ) : Nat :=
  if 1 ≤ price_step then 0
  else (pySplitDotLast (pyRstrip0 (pyFloatStr price_step))).length

/-- Sign characters of a formatted integer. -/
def formatSign (n : ℤ) : List Char := if n < 0 then ['-'] else []

/-- Model of Python fixed-point formatting `f"{price:.{dp}f}"`: the value
rounded (half-to-even on the exact value) to `dp` fraction digits, rendered
with exactly `dp` digits after the point, and no point at all when `dp = 0`.
The `-0` sign of a negative value rounding to zero is not modelled. -/
def formatFixed (price : ℚ) (dp : Nat) : String :=
  if dp = 0 then
    String.mk (formatSign (pyRound (price * 10 ^ dp)) ++
      natToChars (pyRound (price * 10 ^ dp)).natAbs)
  else
    String.mk (formatSign (pyRound (price * 10 ^ dp)) ++
      natToChars ((pyRound (price * 10 ^ dp)).natAbs / 10 ^ dp) ++
      '.' :: natDigitsFixed ((pyRound (price * 10 ^ dp)).natAbs % 10 ^ dp) dp)

/-- Embedding of `format_price_string` (weex_cli.py lines 85-96). -/
def format_price_string (price : ℚ) (symbol : String) : String :=
  match lookupPrecision symbol with
  | none => pyFloatStr price
  | some precision => formatFixed price (decimalPlaces precision.price_step)

/-- The number of characters after the last `'.'` of a string, 0 when the
string has no `'.'`: the count of fraction digits of a formatted number. -/
def fracDigitCount (s : String) : Nat :=
  if '.' ∈ s.data then (s.data.reverse.takeWhile (fun c => c != '.')).length else 0

/-- Modelled from the spec: the number of fraction digits a decimal step has.
Zero for a step of 1 or greater, otherwise the number of decimal places: the
least `k` such that `step * 10^k` is an integer. -/
def specFracDigits (step : ℚ) : Nat :=
  if 1 ≤ step then 0 else decExp step.den


theorem digitChar_ne_dot (n : Nat) : (digitChar n != '.') = true := by
  unfold digitChar
  split_ifs <;> decide

theorem natDigitsFixed_length (m k : Nat) : (natDigitsFixed m k).length = k := by
  induction k generalizing m with
  | zero => rfl
  | succ k ih => simp [natDigitsFixed, ih]

theorem natDigitsFixed_ne_dot (m k : Nat) :
    ∀ c ∈ natDigitsFixed m k, (c != '.') = true := by
  induction k generalizing m with
  | zero => intro c hc; simp [natDigitsFixed] at hc
  | succ k ih =>
    intro c hc
    simp only [natDigitsFixed, List.mem_append, List.mem_singleton] at hc
    rcases hc with h | h
    · exact ih _ _ h
    · subst h; exact digitChar_ne_dot _

theorem natToCharsAux_ne_dot (fuel n : Nat) :
    ∀ c ∈ natToCharsAux fuel n, (c != '.') = true := by
  induction fuel generalizing n with
  | zero => intro c hc; simp [natToCharsAux] at hc
  | succ fuel ih =>
    intro c hc
    by_cases h : n = 0
    · simp [natToCharsAux, h] at hc
    · simp only [natToCharsAux, if_neg h, List.mem_append, List.mem_singleton] at hc
      rcases hc with h' | h'
      · exact ih _ _ h'
      · subst h'; exact digitChar_ne_dot _

theorem natToChars_ne_dot (n : Nat) : ∀ c ∈ natToChars n, (c != '.') = true := by
  unfold natToChars
  split_ifs with h
  · intro c hc; simp at hc; subst hc; decide
  · exact natToCharsAux_ne_dot _ _

theorem formatSign_ne_dot (n : ℤ) : ∀ c ∈ formatSign n, (c != '.') = true := by
  unfold formatSign
  split_ifs <;> intro c hc <;> simp at hc
  subst hc; decide

theorem no_dot_of_all_bne {l : List Char} (h : ∀ c ∈ l, (c != '.') = true) :
    '.' ∉ l := by
  intro hm
  simpa using h _ hm

theorem takeWhile_until_dot (l r : List Char) (h : ∀ c ∈ l, (c != '.') = true) :
    List.takeWhile (fun c => c != '.') (l ++ '.' :: r) = l := by
  induction l with
  | nil => simp [List.takeWhile_cons]
  | cons a l ih =>
    have ha := h a (List.mem_cons_self a l)
    simp only [List.cons_append, List.takeWhile_cons, ha, if_true]
    rw [ih (fun c hc => h c (List.mem_cons_of_mem _ hc))]

theorem fracDigitCount_formatFixed (price : ℚ) (dp : Nat) :
    fracDigitCount (formatFixed price dp) = dp := by
  by_cases hdp : dp = 0
  · subst hdp
    rw [formatFixed, if_pos rfl, fracDigitCount]
    rw [if_neg]
    intro hm
    simp only [String.mk, List.mem_append] at hm
    rcases hm with h | h
    · exact no_dot_of_all_bne (formatSign_ne_dot _) h
    · exact no_dot_of_all_bne (natToChars_ne_dot _) h
  · rw [formatFixed, if_neg hdp, fracDigitCount]
    set A := formatSign (pyRound (price * 10 ^ dp)) ++
      natToChars ((pyRound (price * 10 ^ dp)).natAbs / 10 ^ dp) with hA
    set frac := natDigitsFixed ((pyRound (price * 10 ^ dp)).natAbs % 10 ^ dp) dp with hfrac
    have hshape : (String.mk (formatSign (pyRound (price * 10 ^ dp)) ++
        natToChars ((pyRound (price * 10 ^ dp)).natAbs / 10 ^ dp) ++
        '.' :: natDigitsFixed ((pyRound (price * 10 ^ dp)).natAbs % 10 ^ dp) dp)).data
        = A ++ '.' :: frac := by
      simp [hA, hfrac, List.append_assoc]
    rw [if_pos]
    · rw [hshape, List.reverse_append, List.reverse_cons, List.append_assoc,
        List.singleton_append, takeWhile_until_dot, List.length_reverse,
        hfrac, natDigitsFixed_length]
      intro c hc
      exact natDigitsFixed_ne_dot _ _ c (List.mem_reverse.mp hc)
    · rw [hshape]
      simp

theorem table_decimalPlaces : ∀ kv ∈ SYMBOL_PRECISION,
    decimalPlaces kv.2.price_step = specFracDigits kv.2.price_step := by
  intro kv hkv
  fin_cases hkv <;> with_unfolding_all rfl

/-- C4: for every symbol of the precision table, the formatted price string
has exactly as many fraction digits as the symbol's price step has (two for a
step of 0.01, five for 0.00001, and so on for every table entry); for a step
of 1 or greater the fixed-point format yields zero fraction digits. -/
theorem c4_price_format_fraction_digits :
    (∀ sym p, lookupPrecision sym = some p → ∀ price : ℚ,
      fracDigitCount (format_price_string price sym) = specFracDigits p.price_step)
    ∧ (∀ (price step : ℚ), 1 ≤ step →
      fracDigitCount (formatFixed price (decimalPlaces step)) = 0) := by
  constructor
  · intro sym p h price
    have hdp : decimalPlaces p.price_step = specFracDigits p.price_step :=
      table_decimalPlaces _ (lookupPrecision_mem h)
    simp only [format_price_string, h]
    rw [fracDigitCount_formatFixed, hdp]
  · intro price step hstep
    have h0 : decimalPlaces step = 0 := by simp [decimalPlaces, hstep]
    rw [h0]
    exact fracDigitCount_formatFixed price 0

theorem c4_witness :
    fracDigitCount (format_price_string (567/100) "cmt_ethusdt") = specFracDigits (0.01 : ℚ)
    ∧ fracDigitCount (formatFixed (567/100) (decimalPlaces 2)) = 0 :=
  ⟨c4_price_format_fraction_digits.1 "cmt_ethusdt" ⟨0.01, 0.001, 0.001⟩ (by rfl) (567/100),
   c4_price_format_fraction_digits.2 (567/100) 2 (by norm_num)⟩

/-- The SHA-256 word modulus `2^32`. -/
def M32 : Nat := 4294967296

def add32 (a b : Nat) : Nat := (a + b) % M32

def rotr32 (x n : Nat) : Nat := x / 2 ^ n + x % 2 ^ n * 2 ^ (32 - n)

def shr32 (x n : Nat) : Nat := x / 2 ^ n

def not32 (x : Nat) : Nat := x ^^^ (M32 - 1)

/-- The 64 SHA-256 round constants (FIPS 180-4 section 4.2.2, here written as
decimal literals; the first is 0x428a2f98, the last 0xc67178f2). -/
def sha256K : List Nat :=
  [1116352408, 1899447441, 3049323471, 3921009573, 961987163, 1508970993,
   2453635748, 2870763221, 3624381080, 310598401, 607225278, 1426881987,
   1925078388, 2162078206, 2614888103, 3248222580, 3835390401, 4022224774,
   264347078, 604807628, 770255983, 1249150122, 1555081692, 1996064986,
   2554220882, 2821834349, 2952996808, 3210313671, 3336571891, 3584528711,
   113926993, 338241895, 666307205, 773529912, 1294757372, 1396182291,
   1695183700, 1986661051, 2177026350, 2456956037, 2730485921, 2820302411,
   3259730800, 3345764771, 3516065817, 3600352804, 4094571909, 275423344,
   430227734, 506948616, 659060556, 883997877, 958139571, 1322822218,
   1537002063, 1747873779, 1955562222, 2024104815, 2227730452, 2361852424,
   2428436474, 2756734187, 3204031479, 3329325298]

/-- The SHA-256 initial hash value (FIPS 180-4 section 5.3.3, decimal
literals; the first word is 0x6a09e667). -/
def sha256H0 : List Nat :=
  [1779033703, 3144134277, 1013904242, 2773480762, 1359893119, 2600822924,
   528734635, 1541459225]

def bigSigma0 (x : Nat) : Nat := rotr32 x 2 ^^^ rotr32 x 13 ^^^ rotr32 x 22

def bigSigma1 (x : Nat) : Nat := rotr32 x 6 ^^^ rotr32 x 11 ^^^ rotr32 x 25

def smallSigma0 (x : Nat) : Nat := rotr32 x 7 ^^^ rotr32 x 18 ^^^ shr32 x 3

def smallSigma1 (x : Nat) : Nat := rotr32 x 17 ^^^ rotr32 x 19 ^^^ shr32 x 10

def chFn (e f g : Nat) : Nat := (e &&& f) ^^^ (not32 e &&& g)

def majFn (a b c : Nat) : Nat := (a &&& b) ^^^ (a &&& c) ^^^ (b &&& c)

/-- The `count` big-endian bytes of `n`. -/
def beBytes : Nat → Nat → List Nat
  | 0, _ => []
  | count+1, n => beBytes count (n / 256) ++ [n % 256]

/-- SHA-256 padding: `0x80`, zeros to 56 mod 64, then the 8-byte big-endian
bit length. -/
def sha256Pad (msg : List Nat) : List Nat :=
  msg ++ 0x80 :: List.replicate ((64 + 55 - msg.length % 64) % 64) 0
      ++ beBytes 8 (msg.length * 8)

/-- Group bytes into big-endian 32-bit words. -/
def bytesToWords : List Nat → List Nat
  | b0 :: b1 :: b2 :: b3 :: rest =>
      (((b0 * 256 + b1) * 256 + b2) * 256 + b3) :: bytesToWords rest
  | _ => []

/-- Split a byte list into 64-byte chunks. -/
def chunks64 (l : List Nat) : List (List Nat) :=
  if _h : l.length = 0 then [] else l.take 64 :: chunks64 (l.drop 64)
termination_by l.length
decreasing_by
  simp only [List.length_drop]
  omega

/-- Message-schedule extension: starting from the 16 chunk words, append the
next `t` scheduled words. -/
def sha256Extend (w : List Nat) : Nat → List Nat
  | 0 => w
  | t+1 =>
    let prev := sha256Extend w t
    let i := prev.length
    prev ++ [add32 (add32 (smallSigma1 (prev.getD (i - 2) 0)) (prev.getD (i - 7) 0))
             (add32 (smallSigma0 (prev.getD (i - 15) 0)) (prev.getD (i - 16) 0))]

/-- One SHA-256 compression round on the eight-word state. -/
def sha256Round (W : List Nat) (st : List Nat) (t : Nat) : List Nat :=
  match st with
  | [a, b, c, d, e, f, g, h] =>
    [add32 (add32 h (add32 (bigSigma1 e) (add32 (chFn e f g)
        (add32 (sha256K.getD t 0) (W.getD t 0)))))
      (add32 (bigSigma0 a) (majFn a b c)),
     a, b, c,
     add32 d (add32 h (add32 (bigSigma1 e) (add32 (chFn e f g)
        (add32 (sha256K.getD t 0) (W.getD t 0))))),
     e, f, g]
  | _ => st

/-- Process one 64-byte chunk against the running hash. -/
def sha256Chunk (h : List Nat) (chunk : List Nat) : List Nat :=
  let W := sha256Extend (bytesToWords chunk) 48
  let st := (List.range 64).foldl (sha256Round W) h
  (h.zip st).map (fun p => add32 p.1 p.2)

/-- SHA-256 of a byte list (bytes as naturals below 256), per FIPS 180-4. -/
def sha256 (msg : List Nat) : List Nat :=
  (((chunks64 (sha256Pad msg)).foldl sha256Chunk sha256H0).map (beBytes 4)).flatten

/-- HMAC-SHA256 (RFC 2104), as computed by Python's `hmac` module with
`hashlib.sha256`: block size 64 bytes. -/
def hmacSha256 (key msg : List Nat) : List Nat :=
  let k0 := if 64 < key.length then sha256 key else key
  let kPad := k0 ++ List.replicate (64 - k0.length) 0
  sha256 ((kPad.map (fun b => b ^^^ 0x5c)) ++
    sha256 ((kPad.map (fun b => b ^^^ 0x36)) ++ msg))

def base64Char (n : Nat) : Char :=
  "ABCDEFGHIJKLMNOPQRSTUVWXYZabcdefghijklmnopqrstuvwxyz0123456789+/".data.getD n '='

/-- Standard base64 alphabet encoding with `'='` padding (RFC 4648). -/
def base64Chars : List Nat → List Char
  | [] => []
  | [a] => [base64Char (a / 4), base64Char (a % 4 * 16), '=', '=']
  | [a, b] => [base64Char (a / 4), base64Char (a % 4 * 16 + b / 16), base64Char (b % 16 * 4), '=']
  | a :: b :: c :: rest =>
      base64Char (a / 4) :: base64Char (a % 4 * 16 + b / 16) ::
      base64Char (b % 16 * 4 + c / 64) :: base64Char (c % 64) :: base64Chars rest

def base64Encode (bytes : List Nat) : String := String.mk (base64Chars bytes)

/-- UTF-8 encoding of one Unicode code point. -/
def utf8Char (c : Char) : List Nat :=
  if c.toNat < 0x80 then [c.toNat]
  else if c.toNat < 0x800 then [0xc0 + c.toNat / 64, 0x80 + c.toNat % 64]
  else if c.toNat < 0x10000 then
    [0xe0 + c.toNat / 4096, 0x80 + c.toNat / 64 % 64, 0x80 + c.toNat % 64]
  else
    [0xf0 + c.toNat / 262144, 0x80 + c.toNat / 4096 % 64,
     0x80 + c.toNat / 64 % 64, 0x80 + c.toNat % 64]

/-- UTF-8 bytes of a string, as Python's `str.encode()`. -/
def utf8Encode (s : String) : List Nat := (s.data.map utf8Char).flatten

/-- Python's `str()` applied to a value that is already a `str` returns it
unchanged; models `str(body)` at weex_cli.py line 101, where `body : str`. -/
def pyStrOfStr (s : String) : String := s

/-- Embedding of `generate_signature` (weex_cli.py lines 99-103):
`message = timestamp + method.upper() + request_path + query_string + str(body)`
then base64 of the HMAC-SHA256 digest keyed by the secret's UTF-8 bytes. -/
def generate_signature (secret_key timestamp method request_path query_string : String)
    (body : String) : String :=
  base64Encode (hmacSha256 (utf8Encode secret_key)
    (utf8Encode (timestamp ++ method.toUpper ++ request_path ++ query_string ++ pyStrOfStr body)))

/-- Modelled from the spec (section 4.2 of the design): the signature is the
standard base64 encoding, with padding, of the raw HMAC-SHA256 MAC keyed by
the UTF-8 bytes of the secret, over the concatenation — in order and with no
separators — of the timestamp, the upper-cased method, the path, the query
string exactly as supplied, and the body string. -/
def specSignature (secretKey timestamp method path query body : String) : String :=
  base64Encode (hmacSha256 (utf8Encode secretKey)
    (utf8Encode (timestamp ++ method.toUpper ++ path ++ query ++ body)))

/-- C1: for every secret key, timestamp, method, path, query string and body
string, `generate_signature` equals the specified construction: base64 (with
padding) of the raw HMAC-SHA256 MAC, keyed by the UTF-8 bytes of the secret,
over the concatenation of timestamp, upper-cased method, path, query string
verbatim, and body string (the body enters verbatim, so an absent body signed
as the empty string stays empty — no `"null"` placeholder appears). -/
theorem c1_generate_signature_matches_spec
    (secret_key timestamp method request_path query_string body : String) :
    generate_signature secret_key timestamp method request_path query_string body
      = specSignature secret_key timestamp method request_path query_string body := rfl

/-- The request body built by `place_order` (weex_cli.py lines 436-454): the
dict has exactly these seven keys, every value a string. -/
structure OrderBody where
  symbol : String
  client_oid : String
  size : String
  type : String
  order_type : String
  match_price : String
  price : String
deriving DecidableEq, Repr

/-- Embedding of `place_order` (weex_cli.py lines 426-466) up to the transport
boundary. `client_oid` stands for `str(int(time.time() * 1000))`, supplied by
the clock. `some body` means the function reaches its single `send_request`
call (line 466) with this request body; `none` means it prints the
missing-price error (lines 447-449) and returns `None` without building or
sending any request — the response handling past line 466 consumes the
transport's reply and is not part of the embedded pipeline. -/
def place_order (symbol side order_type : String) (size : ℚ) (price : Option ℚ)
    (client_oid : String) : Option OrderBody :=
  let adjusted_size := adjust_size_to_precision size symbol
  let side_type := if side = "buy" then "1" else "2"
  let match_price := if order_type = "market" then "1" else "0"
  if order_type = "limit" then
    match price with
    | none => none
    | some p =>
      some { symbol := symbol, client_oid := client_oid,
             size := pyFloatStr adjusted_size, type := side_type,
             order_type := "0", match_price := match_price,
             price := format_price_string (adjust_price_to_precision p symbol) symbol }
  else
    some { symbol := symbol, client_oid := client_oid,
           size := pyFloatStr adjusted_size, type := side_type,
           order_type := "0", match_price := match_price, price := "0" }

/-- The number of `send_request` invocations `place_order` performs: the
source calls `send_request` exactly once (line 466), only after the
missing-price check has passed. -/
def place_order_network_calls (symbol side order_type : String) (size : ℚ)
    (price : Option ℚ) (client_oid : String) : Nat :=
  match place_order symbol side order_type size price client_oid with
  | none => 0
  | some _ => 1

/-- C3: a limit order with no price fails before any request is built or
sent: `place_order` returns the failure value `None` and attempts zero
network calls. -/
theorem c3_limit_order_without_price_fails (symbol side : String) (size : ℚ)
    (client_oid : String) :
    place_order symbol side "limit" size none client_oid = none
    ∧ place_order_network_calls symbol side "limit" size none client_oid = 0 := by
  constructor
  · rfl
  · rfl

/-- C7: every request body produced by `place_order` carries exactly the wire
encodings: the symbol and client order id as given, the size as the string of
the adjusted size, `type` `"1"` for buy and `"2"` for sell, `order_type`
`"0"`, `match_price` `"0"` for limit and `"1"` for market, and a literal
price of `"0"` for every market order regardless of any price argument. -/
theorem c7_order_body_wire_fields (symbol side order_type : String) (size : ℚ)
    (price : Option ℚ) (client_oid : String) (body : OrderBody)
    (h : place_order symbol side order_type size price client_oid = some body) :
    body.symbol = symbol ∧ body.client_oid = client_oid
    ∧ body.size = pyFloatStr (adjust_size_to_precision size symbol)
    ∧ (side = "buy" → body.type = "1") ∧ (side = "sell" → body.type = "2")
    ∧ body.order_type = "0"
    ∧ (order_type = "limit" → body.match_price = "0")
    ∧ (order_type = "market" → body.match_price = "1" ∧ body.price = "0") := by
  by_cases hl : order_type = "limit"
  · subst hl
    cases price with
    | none => simp [place_order] at h
    | some p =>
      rw [place_order.eq_def, if_pos rfl] at h
      obtain rfl := Option.some.inj h
      refine ⟨rfl, rfl, rfl, fun hs => by rw [if_pos hs], ?_, rfl,
        fun _ => by simp, fun hmk => absurd hmk (by decide)⟩
      intro hs
      rw [if_neg (fun hb => by rw [hs] at hb; exact absurd hb (by decide))]
  · rw [place_order.eq_def, if_neg hl] at h
    obtain rfl := Option.some.inj h
    refine ⟨rfl, rfl, rfl, fun hs => by rw [if_pos hs], ?_, rfl,
      fun hc => absurd hc hl, fun hmk => ⟨by rw [if_pos hmk], rfl⟩⟩
    intro hs
    rw [if_neg (fun hb => by rw [hs] at hb; exact absurd hb (by decide))]

theorem c7_witness :
    (OrderBody.mk "cmt_btcusdt" "1700000000000" "0.5" "2" "0" "1" "0").match_price = "1"
    ∧ (OrderBody.mk "cmt_btcusdt" "1700000000000" "0.5" "2" "0" "1" "0").price = "0" :=
  (c7_order_body_wire_fields "cmt_btcusdt" "sell" "market" (1/2) (some 3)
    "1700000000000" (OrderBody.mk "cmt_btcusdt" "1700000000000" "0.5" "2" "0" "1" "0")
    (by with_unfolding_all rfl)).2.2.2.2.2.2.2 rfl

/-- A Python/JSON value, as consumed by the position-query code. -/
inductive PyVal where
  | str (s : String)
  | num (q : ℚ)
  | list (xs : List PyVal)
  | dict (kvs : List (String × PyVal))
  | none_

/-- Python truthiness: empty strings, zero, empty containers and `None` are
falsy. -/
def pyTruthy : PyVal → Bool
  | .str s => !(s == "")
  | .num q => !(q == 0)
  | .list xs => !xs.isEmpty
  | .dict kvs => !kvs.isEmpty
  | .none_ => false

/-- Python `dict.get(k)` on an association, `none` when the key is absent. -/
def dictGet (kvs : List (String × PyVal)) (k : String) : Option PyVal :=
  (kvs.find? (fun kv => kv.1 == k)).map (·.2)

/-- Python `dict.get(k)` with its `None` default as a value. -/
def dictGetOrNone (kvs : List (String × PyVal)) (k : String) : PyVal :=
  (dictGet kvs k).getD .none_

/-- Python `a or b`: `a` when truthy, else `b`. -/
def pyOr (a b : PyVal) : PyVal := if pyTruthy a then a else b

def digitsVal (cs : List Char) : Nat := cs.foldl (fun a c => a * 10 + (c.toNat - 48)) 0

def parsePyFloatCore (sign : ℚ) (cs : List Char) : Option ℚ :=
  match cs.dropWhile (fun c => c.isDigit) with
  | [] =>
    if (cs.takeWhile (fun c => c.isDigit)).isEmpty then none
    else some (sign * digitsVal (cs.takeWhile (fun c => c.isDigit)))
  | '.' :: frac =>
    if frac.all (fun c => c.isDigit)
        && !((cs.takeWhile (fun c => c.isDigit)).isEmpty && frac.isEmpty) then
      some (sign * (digitsVal (cs.takeWhile (fun c => c.isDigit))
        + (digitsVal frac : ℚ) / 10 ^ frac.length))
    else none
  | _ => none

/-- Model of Python `float(str)` for plain decimal literals: optional sign,
digits with an optional fractional part. Exponential and special forms are
treated as unparseable — a parse failure raises, which the caller's bare
`except` turns into `has_position = True`. -/
def parsePyFloat (s : String) : Option ℚ :=
  match s.data with
  | '-' :: rest => parsePyFloatCore (-1) rest
  | '+' :: rest => parsePyFloatCore 1 rest
  | cs => parsePyFloatCore 1 cs

/-- Model of Python `float(x)`: numbers convert to themselves, strings parse
as decimal literals; `None`, lists and dicts raise (`none`). -/
def pyFloat : PyVal → Option ℚ
  | .num q => some q
  | .str s => parsePyFloat s
  | _ => none

def natToStr (n : Nat) : String := String.mk (natToChars n)

def intStr (z : ℤ) : String := String.mk (formatSign z ++ natToChars z.natAbs)

mutual

/-- Model of Python `repr` for the embedded values: floats rendered via
`pyFloatStr`, integer-valued numbers as integers (the embedding merges
Python's int and float into one numeric constructor). -/
def pyRepr : PyVal → String
  | .str s => "\x27" ++ s ++ "\x27"
  | .num q => if q.den = 1 then intStr q.num else pyFloatStr q
  | .none_ => "None"
  | .list xs => "[" ++ pyReprItems xs ++ "]"
  | .dict kvs => "\x7b" ++ pyReprPairs kvs ++ "\x7d"

def pyReprItems : List PyVal → String
  | [] => ""
  | [v] => pyRepr v
  | v :: w :: rest => pyRepr v ++ ", " ++ pyReprItems (w :: rest)

def pyReprPairs : List (String × PyVal) → String
  | [] => ""
  | [kv] => "\x27" ++ kv.1 ++ "\x27: " ++ pyRepr kv.2
  | kv :: kw :: rest => "\x27" ++ kv.1 ++ "\x27: " ++ pyRepr kv.2 ++ ", " ++ pyReprPairs (kw :: rest)

end

/-- Python `str(x)`: a `str` passes through, other values use their repr. -/
def pyStrOfVal : PyVal → String
  | .str s => s
  | v => pyRepr v

/-- Python `text[:100]`. -/
def takePrefix100 (s : String) : String := String.mk (s.data.take 100)

/-- The slice of an HTTP response the position code reads: `status_code`, the
parsed `.json()` value (`none` when parsing raises), and `.text`. -/
structure Response where
  status : Nat
  body : Option PyVal
  text : String

/-- The error message computed for a non-200 response (weex_cli.py lines
303-308): `message`, else `msg`, from a parsed dict body (converted to text
where the source lets the f-string do it), else `"HTTP {code}"`; when
`.json()` raises or `.get` is unavailable (non-dict body), the bare `except`
yields `"HTTP {code}: {text[:100]}"`. -/
def httpErrorMsg (r : Response) : String :=
  match r.body with
  | some (PyVal.dict kvs) =>
    (match dictGet kvs "message" with
     | some v => pyStrOfVal v
     | none =>
       match dictGet kvs "msg" with
       | some v => pyStrOfVal v
       | none => "HTTP " ++ natToStr r.status)
  | _ => "HTTP " ++ natToStr r.status ++ ": " ++ takePrefix100 r.text

/-- Embedding of `get_single_position` (weex_cli.py lines 275-318) over a
transport oracle `t` standing for `send_request`. The triple is the source's
`(success, data, error_message)` return. `Except.error` models an uncaught
exception: `response.json()` at line 298 sits outside the `try` block, so a
200 response whose body does not parse raises out of the function. -/
def get_single_position (t : String → Except String Response) (symbol : String) :
    Except String (Bool × Option PyVal × Option String) :=
  match t symbol with
  | .error e => .ok (false, none, some ("查询失败: " ++ e))
  | .ok r =>
    if r.status = 200 then
      match r.body with
      | some data => .ok (true, some data, none)
      | none => .error "response.json() raised"
    else .ok (false, none, some (httpErrorMsg r))

/-- Embedding of the `pos` extraction (weex_cli.py lines 341-352): the first
element of a list (none when empty), the `"data"` entry of a dict (the dict
itself when the key is absent), `None` for any other payload. -/
def extractPos : PyVal → Option PyVal
  | .list xs => xs.head?
  | .dict kvs =>
    match dictGet kvs "data" with
    | some v => some v
    | none => some (.dict kvs)
  | _ => none

/-- Embedding of the has-position test (weex_cli.py lines 354-368): size from
`size`/`amount` (default `"0"`), unrealized PnL from its four accepted
spellings; a position exists when `float(size) > 0 or float(pnl) != 0`, and a
value whose conversion raises counts as a position. -/
def hasPositionCheck (size upnl : PyVal) : Bool :=
  match pyFloat size with
  | none => true
  | some s =>
    if 0 < s then true
    else
      match pyFloat upnl with
      | none => true
      | some u => !(u == 0)

/-- Embedding of the success handling of the `get_all_positions` loop body
(weex_cli.py lines 339-374): the `{"symbol": symbol, **pos}` entry appended
to `positions` when the extracted value is a non-empty dict that passes the
has-position test, `none` otherwise. In the merged dict the entries of `pos`
override the `symbol` key, modelled by listing them first for the
first-match lookup. -/
def collectEntry (symbol : String) (position_data : PyVal) : Option PyVal :=
  match extractPos position_data with
  | some (PyVal.dict kvs) =>
    if kvs.isEmpty then none
    else
      if hasPositionCheck
          (pyOr (dictGetOrNone kvs "size") (pyOr (dictGetOrNone kvs "amount") (.str "0")))
          (pyOr (dictGetOrNone kvs "unrealizePnl") (pyOr (dictGetOrNone kvs "unrealizedPnl")
            (pyOr (dictGetOrNone kvs "unrealizedPNL")
              (pyOr (dictGetOrNone kvs "unrealized_pnl") (.str "0")))))
      then some (.dict (kvs ++ [("symbol", .str symbol)]))
      else none
  | _ => none

/-- f-string rendering of the `error_msg` slot (`Optional[str]` in the
source): `str(None)` is `"None"`. -/
def pyStrOfOptStr : Option String → String
  | some s => s
  | none => "None"

/-- Embedding of the `get_all_positions` loop (weex_cli.py lines 331-374)
over a symbol list: each symbol is queried in turn; a failed query appends
`f"{symbol}: {error_msg}"` to the error list and continues with the rest; a
successful, truthy payload may contribute a position entry. `Except.error`
models an exception escaping the loop. -/
def get_all_positions_from (t : String → Except String Response) :
    List String → Except String (List PyVal × List String)
  | [] => .ok ([], [])
  | symbol :: rest =>
    match get_single_position t symbol with
    | .error e => .error e
    | .ok (success, position_data, error_msg) =>
      match get_all_positions_from t rest with
      | .error e => .error e
      | .ok (positions, errors) =>
        if success = false then
          .ok (positions, (symbol ++ ": " ++ pyStrOfOptStr error_msg) :: errors)
        else
          match position_data with
          | some pd =>
            if pyTruthy pd then
              match collectEntry symbol pd with
              | some entry => .ok (entry :: positions, errors)
              | none => .ok (positions, errors)
            else .ok (positions, errors)
          | none => .ok (positions, errors)

/-- Embedding of `get_all_positions` (weex_cli.py lines 321-382): the loop
runs over `list(SYMBOL_PRECISION.keys())`; the source returns `positions` and
reports `errors` in verbose mode, so the embedding returns both lists. -/
def get_all_positions (t : String → Except String Response) :
    Except String (List PyVal × List String) :=
  get_all_positions_from t all_symbols

/-- The error-list entry a symbol contributes: defined exactly when its query
fails (transport exception or non-200 response). -/
def errorOf (t : String → Except String Response) (symbol : String) : Option String :=
  match get_single_position t symbol with
  | .ok (false, _, msg) => some (symbol ++ ": " ++ pyStrOfOptStr msg)
  | _ => none

/-- The position entry a symbol contributes on a successful query. -/
def collectOf (t : String → Except String Response) (symbol : String) : Option PyVal :=
  match get_single_position t symbol with
  | .ok (true, some pd, _) => if pyTruthy pd then collectEntry symbol pd else none
  | _ => none

theorem get_single_position_shape (t : String → Except String Response)
    (hp : ∀ sym r, t sym = .ok r → r.status = 200 → r.body.isSome)
    (symbol : String) :
    (∃ msg, get_single_position t symbol = .ok (false, none, some msg))
    ∨ (∃ pd, get_single_position t symbol = .ok (true, some pd, none)) := by
  cases ht : t symbol with
  | error e =>
    exact Or.inl ⟨"查询失败: " ++ e, by simp [get_single_position, ht]⟩
  | ok r =>
    by_cases hs : r.status = 200
    · cases hb : r.body with
      | some data => exact Or.inr ⟨data, by simp [get_single_position, ht, hs, hb]⟩
      | none =>
        have hsome := hp symbol r ht hs
        rw [hb] at hsome
        simp at hsome
    · exact Or.inl ⟨httpErrorMsg r, by simp [get_single_position, ht, hs]⟩

theorem get_all_positions_from_spec (t : String → Except String Response)
    (hp : ∀ sym r, t sym = .ok r → r.status = 200 → r.body.isSome) :
    ∀ syms : List String,
      get_all_positions_from t syms
        = .ok (syms.filterMap (collectOf t), syms.filterMap (errorOf t)) := by
  intro syms
  induction syms with
  | nil => rfl
  | cons symbol rest ih =>
    rcases get_single_position_shape t hp symbol with ⟨msg, hgs⟩ | ⟨pd, hgs⟩
    · have hc : collectOf t symbol = none := by rw [collectOf, hgs]
      have he : errorOf t symbol = some (symbol ++ ": " ++ pyStrOfOptStr (some msg)) := by
        rw [errorOf, hgs]
      simp [get_all_positions_from, hgs, ih, List.filterMap_cons, hc, he]
    · have hc : collectOf t symbol = if pyTruthy pd then collectEntry symbol pd else none := by
        rw [collectOf, hgs]
      have he : errorOf t symbol = none := by rw [errorOf, hgs]
      simp only [get_all_positions_from, hgs, ih, List.filterMap_cons, hc, he,
        if_true, if_false]
      by_cases htr : pyTruthy pd
      · simp only [htr, if_true]
        cases hcoll : collectEntry symbol pd with
        | none => simp [hcoll]
        | some entry => simp [hcoll]
      · simp [htr]

/-- C9: under the claim's failure universe (transport exceptions and non-200
responses — every 200 response carries a parseable body), the all-positions
query completes over every symbol of the precision table: the batch returns
normally, each failing symbol contributes exactly its `"symbol: message"`
error entry, each successful symbol contributes its position entry when it
has one, and no failure stops the symbols after it from being queried and
collected. -/
theorem c9_all_positions_batch_isolation (t : String → Except String Response)
    (hp : ∀ sym r, t sym = .ok r → r.status = 200 → r.body.isSome) :
    get_all_positions t
      = .ok (all_symbols.filterMap (collectOf t), all_symbols.filterMap (errorOf t)) :=
  get_all_positions_from_spec t hp all_symbols

/-- A concrete transport for the C9 witness: the first table symbol's query
raises, the second gets a 500 error response, every other symbol succeeds
with an open position. -/
def demoTransport (symbol : String) : Except String Response :=
  if symbol = "cmt_btcusdt" then .error "Connection refused"
  else if symbol = "cmt_ethusdt" then
    .ok ⟨500, some (.dict [("message", .str "boom")]), "err"⟩
  else .ok ⟨200, some (.dict [("size", .str "1"), ("unrealizePnl", .str "2")]), ""⟩

theorem c9_witness :
    get_all_positions demoTransport
      = .ok (all_symbols.filterMap (collectOf demoTransport),
             all_symbols.filterMap (errorOf demoTransport)) := by
  refine c9_all_positions_batch_isolation demoTransport ?_
  intro sym r h hs
  unfold demoTransport at h
  by_cases h1 : sym = "cmt_btcusdt"
  · rw [if_pos h1] at h
    exact Except.noConfusion h
  · rw [if_neg h1] at h
    by_cases h2 : sym = "cmt_ethusdt"
    · rw [if_pos h2] at h
      injection h with h'
      subst h'
      simp at hs
    · rw [if_neg h2] at h
      injection h with h'
      subst h'
      rfl

set_option maxHeartbeats 16000000 in
set_option maxRecDepth 40000 in
example : generate_signature "k" "1000" "GET" "/p" "?a=1" ""
    = "+Ni9+5S6SKfEXZYH8o/pi4YuW/Ao1UyZI+B2vGSoECQ=" := by
  with_unfolding_all rfl
